import Mathlib

/-!
Verification of the speculative completion-context resolution engine
(`crates/ide-completion/src/context.rs` and
`crates/ide-completion/src/completions/field.rs`).

The development shallowly embeds the components the claims are about:

* `Vis`     — the per-candidate visibility filter
  (`CompletionContext::is_visible_impl`, `CompletionContext::is_doc_hidden`);
* `Field`   — the field-list completion provider (`complete_field_list`);
* `Expect`  — the expected-type/name inferencer
  (`CompletionContext::expected_type_and_name`, `has_ref`);
* `Walk`    — the dual-tree expansion walker and context construction
  (`CompletionContext::new`, `expand_and_fill`, the guard part of `fill`);
* `Classify` — name classification and pattern-context construction with
  node provenance (`CompletionContext::classify_name`, `pattern_context_for`,
  `find_node_in_file_compensated`), used to settle the claim that the result
  object only ever stores nodes of the original parse tree.

External collaborators (the semantic model `Semantics`, the rowan syntax
tree primitives) are modelled as explicit oracle structures whose fields
return `Option` results, exactly as the interface section of the
specification describes them.  The control flow of the embedded functions
is translated from the Rust source.
-/

namespace RAComp

/-! ## Visibility filter (`context.rs`, `is_visible_impl` / `is_doc_hidden`) -/

namespace Vis

/-- Result of the visibility filter, `enum Visible { Yes, Editable, No }`. -/
inductive Visible
  | yes
  | editable
  | no
deriving DecidableEq, Repr

/-- The one configuration bit `is_visible_impl` reads,
`config.enable_private_editable`. -/
structure VisConfig where
  enable_private_editable : Bool
deriving DecidableEq, Repr

/-- The facts about a candidate item that `is_visible_impl` consults, each a
query to the external semantic model / database:
`vis.is_visible_from(db, module)`;
`db.source_root(db.file_source_root(defining_crate.root_file(db))).is_library`;
`attrs.has_doc_hidden()`; and whether `self.krate == defining_crate`. -/
structure VisCandidate where
  is_visible_from_module : Bool
  is_library : Bool
  has_doc_hidden : Bool
  same_crate : Bool
deriving DecidableEq, Repr

/-- `CompletionContext::is_doc_hidden`: a `doc(hidden)` item is only treated
as hidden when its defining crate differs from the completion-site crate. -/
def is_doc_hidden (same_crate has_doc_hidden : Bool) : Bool :=
  !same_crate && has_doc_hidden

/-- `CompletionContext::is_visible_impl`, translated clause for clause. -/
def is_visible_impl (config : VisConfig) (c : VisCandidate) : Visible :=
  if !c.is_visible_from_module then
    if !config.enable_private_editable then Visible.no
    else if !c.is_library then Visible.editable
    else Visible.no
  else if is_doc_hidden c.same_crate c.has_doc_hidden then Visible.no
  else Visible.yes

/-- Restatement of the visibility filter following the words of the claim,
case by case and in the claim's order: Hidden when the item is not visible
from the completion-site module and private-editable completions are
disabled; when they are enabled, Editable if the defining crate's source
root is not read-only (read-only = a library root), else Hidden;
additionally Hidden whenever the item is `doc(hidden)` with a defining
crate different from the completion-site crate, same-crate `doc(hidden)`
items remaining visible; otherwise Visible. -/
def visibleSpec (config : VisConfig) (c : VisCandidate) : Visible :=
  if ¬c.is_visible_from_module then
    if ¬config.enable_private_editable then Visible.no
    else if ¬c.is_library then Visible.editable
    else Visible.no
  else if c.has_doc_hidden ∧ ¬c.same_crate then Visible.no
  else Visible.yes

end Vis

/-! ## Field-list provider (`completions/field.rs`, `complete_field_list`) -/

namespace Field

/-- `NameKind` restricted to what `complete_field_list` distinguishes:
the `RecordField` variant against every other name kind. -/
inductive FNameKind
  | recordField
  | otherName
deriving DecidableEq, Repr

/-- Modelled from the spec: the path-slot kind carried by the matched
`PathCompletionCtx`.  The provider's version of the `Type` variant carries an
`in_tuple_struct` flag (cursor in a tuple-struct field type slot); the
definition of that variant lives outside this source excerpt, so only the
shape the provider matches on is modelled. -/
inductive FPathKind
  | typeKind (in_tuple_struct : Bool)
  | otherKind
deriving DecidableEq, Repr

/-- The fields of `PathCompletionCtx` that the provider's pattern tests.
`qualifier` and `parent` are only tested for presence. -/
structure FPathCtx where
  has_macro_bang : Bool
  is_absolute_path : Bool
  qualifier : Option Unit
  parent : Option Unit
  kind : FPathKind
  has_type_args : Bool
deriving DecidableEq, Repr

/-- `IdentContext` restricted to the shapes `complete_field_list` matches:
a declaration name with its kind, a name reference with its optional path
context, or anything else. -/
inductive FIdentCtx
  | nameCtx (kind : FNameKind)
  | nameRefCtx (path_ctx : Option FPathCtx)
  | otherIdent
deriving DecidableEq, Repr

/-- The completion context as seen by `complete_field_list`: its
`ident_ctx`, and — modelled from the spec — the qualifier context's
`vis_node` (the visibility node already written before the cursor, whose
defining code lies outside this source excerpt). -/
structure FCompletionCtx where
  ident_ctx : FIdentCtx
  vis_node : Option Unit
deriving DecidableEq, Repr

/-- The or-pattern of `complete_field_list`'s match: a record-field name
context, or a name-reference whose path context is exactly
`has_macro_bang: false, is_absolute_path: false, qualifier: None,
parent: None, kind: Type { in_tuple_struct: true }, has_type_args: false`. -/
def field_list_position (i : FIdentCtx) : Bool :=
  match i with
  | FIdentCtx.nameCtx FNameKind.recordField => true
  | FIdentCtx.nameRefCtx (some ⟨false, false, none, none,
      FPathKind.typeKind true, false⟩) => true
  | _ => false

/-- `complete_field_list`, returning the keyword snippets it offers (each
`add_keyword` call adds one snippet, in source order). -/
def complete_field_list (ctx : FCompletionCtx) : List String :=
  if field_list_position ctx.ident_ctx then
    if ctx.vis_node.isNone then
      ["pub(crate)", "pub(super)", "pub"]
    else []
  else []

end Field

/-! ## Expected type and name (`context.rs`, `expected_type_and_name`, `has_ref`) -/

namespace Expect

/-- Token kinds distinguished by `has_ref` and the `RecordExprFieldList`
branch: `IDENT`, `WHITESPACE`, `T![mut]`, `T![&]`, `T![..]`, anything else. -/
inductive TKind
  | ident
  | whitespace
  | mutKw
  | amp
  | dotdot
  | otherTok
deriving DecidableEq, Repr

/-- The token `has_ref` starts from, together with its `prev_token` chain:
the head is the token's own kind, the tail the kinds of the tokens before
it, nearest first.  An empty tail means `prev_token()` returns `None`. -/
abbrev TokenChain := List TKind

/-- The skip loop of `has_ref`: for each kind in the skip list in order, if
the current token has that kind, step to the previous token (failing when
there is none); finally yield the kind of the token reached. -/
def hasRefSkip : List TKind → TokenChain → Option TKind
  | [], [] => none
  | [], k :: _ => some k
  | _ :: _, [] => none
  | s :: rest, k :: prevs =>
    if k = s then
      match prevs with
      | [] => none
      | _ :: _ => hasRefSkip rest prevs
    else hasRefSkip rest (k :: prevs)

/-- `has_ref`: skip back over an `IDENT`, a `WHITESPACE` and a `mut` token
(in that order, each at most once) and test whether the token reached is
`T![&]`. -/
def has_ref (tok : TokenChain) : Bool :=
  hasRefSkip [TKind.ident, TKind.whitespace, TKind.mutKw] tok == some TKind.amp

/-- Semantic-model types.  `hir::Type` is opaque to the engine except for
`remove_ref`; it is modelled as a base type or a reference layer over a
pointee. -/
inductive Ty
  | base (id : Nat)
  | ref (is_mut : Bool) (pointee : Ty)
deriving DecidableEq, Repr

/-- Modelled from the spec: `hir::Type::remove_ref` (defined in the external
semantic model) strips exactly one reference layer, yielding nothing on a
non-reference type. -/
def Ty.removeRef : Ty → Option Ty
  | Ty.ref _ t => some t
  | Ty.base _ => none

/-- `hir::TypeInfo`: the original type and the optional adjusted type; the
inferencer only ever projects `original`. -/
structure TyInfo where
  original : Ty
  adjusted : Option Ty
deriving DecidableEq, Repr

/-- An expression node, opaque to the inferencer (only handed to the
semantic model). -/
structure EExpr where
  id : Nat
deriving DecidableEq, Repr

/-- A pattern node: the inferencer only distinguishes a simple identifier
pattern (whose `name()` it reads) from every other pattern. -/
inductive EPat
  | identPat (id : Nat) (name : Option String)
  | otherPat (id : Nat)
deriving DecidableEq, Repr

/-- A `RecordExprField` node: its optional value expression and its
`field_name()`. -/
structure ERecordField where
  id : Nat
  expr : Option EExpr
  field_name : Option String
deriving DecidableEq, Repr

/-- The ancestor shapes `expected_type_and_name` dispatches on, each carrying
the sub-syntax the corresponding branch reads.  `otherNode` is the
fall-through that continues the ascent. -/
inductive ENode
  | letStmt (pat : Option EPat) (initializer : Option EExpr)
  | letExpr (pat : Option EPat) (expr : Option EExpr)
  | argList
  | recordExprFieldList (record_expr : Option EExpr)
      (prev_field : Option ERecordField)
  | recordExprField (field : ERecordField)
  | matchExpr (scrutinee : Option EExpr)
  | ifExpr (condition : Option EExpr)
  | identPatNode (pat : EPat)
  | fnNode (id : Nat)
  | closureExpr (expr : EExpr)
  | paramList
  | stmtNode
  | itemNode
  | otherNode
deriving DecidableEq, Repr

/-- The active parameter at the cursor, `ide_db::active_parameter::ActiveParameter`:
its type and its identifier (`ap.ident()`). -/
structure ActiveParam where
  ty : Ty
  ident : Option String
deriving DecidableEq, Repr

/-- The semantic-model queries the inferencer issues, as an oracle.
`active_parameter` is keyed on the cursor token (`ActiveParameter::at_token`),
`fn_ret_type` merges `to_def` with `ret_type`, `as_callable_ret` merges
`as_callable` with `return_type`. -/
structure ESema where
  type_of_expr : EExpr → Option TyInfo
  type_of_pat : EPat → Option TyInfo
  resolve_record_field : ERecordField → Option Ty
  active_parameter : TokenChain → Option ActiveParam
  fn_ret_type : Nat → Option Ty
  as_callable_ret : Ty → Option Ty

/-- `CompletionContext::expected_type_and_name`: ascend from the cursor
token's parent through the ancestor chain (nearest first), the first
matching shape deciding the result; statement, item and parameter-list
boundaries stop the ascent with no result. -/
def expected_type_and_name (sema : ESema) (tok : TokenChain) :
    List ENode → Option Ty × Option String
  | [] => (none, none)
  | node :: rest =>
    match node with
    | ENode.letStmt pat ini =>
      let ty := ((pat.bind sema.type_of_pat).orElse
        (fun _ => ini.bind sema.type_of_expr)).map TyInfo.original
      let name := match pat with
        | some (EPat.identPat _ n) => n
        | some (EPat.otherPat _) => none
        | none => none
      (ty, name)
    | ENode.letExpr pat e =>
      (((pat.bind sema.type_of_pat).orElse
        (fun _ => e.bind sema.type_of_expr)).map TyInfo.original, none)
    | ENode.argList =>
      match sema.active_parameter tok with
      | some ap =>
        let name := ap.ident
        let ty := if has_ref tok then ap.ty.removeRef else some ap.ty
        (ty, name)
      | none => (none, none)
    | ENode.recordExprFieldList record_expr prev_field =>
      if tok.head? = some TKind.dotdot ∨ tok.get? 1 = some TKind.dotdot then
        match record_expr.bind sema.type_of_expr with
        | some ty => (some ty.original, none)
        | none => (none, none)
      else
        match prev_field with
        | some f =>
          match sema.resolve_record_field f with
          | some ty => (some ty, f.field_name)
          | none => (none, none)
        | none => (none, none)
    | ENode.recordExprField f =>
      match f.expr with
      | some e => ((sema.type_of_expr e).map TyInfo.original, f.field_name)
      | none => (sema.resolve_record_field f, f.field_name)
    | ENode.matchExpr scrut =>
      ((scrut.bind sema.type_of_expr).map TyInfo.original, none)
    | ENode.ifExpr cond =>
      ((cond.bind sema.type_of_expr).map TyInfo.original, none)
    | ENode.identPatNode p =>
      ((sema.type_of_pat p).map TyInfo.original, none)
    | ENode.fnNode id => (sema.fn_ret_type id, none)
    | ENode.closureExpr e =>
      match (sema.type_of_expr e).bind
          (fun ti => sema.as_callable_ret ti.original) with
      | some r => (some r, none)
      | none => (none, none)
    | ENode.paramList => (none, none)
    | ENode.stmtNode => (none, none)
    | ENode.itemNode => (none, none)
    | ENode.otherNode => expected_type_and_name sema tok rest

end Expect

/-! ## Dual-tree expansion walker (`context.rs`, `CompletionContext::new`,
`expand_and_fill`, the guard part of `fill`) -/

namespace Walk

/-- A syntax token: its text range (`tkStart`, `tkStop`), whether
`is_in_token_of_for_loop` holds at it, and an identity. -/
structure WToken where
  tkStart : Nat
  tkStop : Nat
  inForLoopTok : Bool
  tid : Nat
deriving DecidableEq, Repr

/-- An `ast::Item` node, opaque to the walker (only handed to the semantic
model's attribute-expansion queries). -/
structure Item where
  iid : Nat
deriving DecidableEq, Repr

/-- An `ast::Attr` node, opaque to the walker. -/
structure Attr where
  aid : Nat
deriving DecidableEq, Repr

/-- An `ast::MacroCall` node: the text of its `path()` when present, and the
identity of its argument `token_tree()` when present. -/
structure MacroCall where
  pathText : Option String
  argId : Option Nat
deriving DecidableEq, Repr

/-- An `ast::TokenTree` node as the walker inspects it: whether its parent
is a `Meta` carrying a `parent_attr()` (the derive check), and its nearest
`ast::MacroCall` ancestor (the function-like check). -/
structure TokenTree where
  ttId : Nat
  parentAttr : Option Attr
  macCall : Option MacroCall
deriving DecidableEq, Repr

/-- A parse tree (a `SyntaxNode` used as a file root), modelled through the
read-only queries the walker issues against it: the end of its text range;
the chain of `ast::Item` ancestors at an offset, innermost first
(`find_node_at_offset::<ast::Item>` followed by the `parent_item`
successors); the innermost `ast::TokenTree` at an offset; and the
right-biased and left-biased token lookups at an offset. -/
structure WFile where
  stopOff : Nat
  itemsAt : Nat → List Item
  ttAt : Nat → Option TokenTree
  tokenAtRight : Nat → Option WToken
  tokenAtLeft : Nat → Option WToken

/-- The derive context recorded by the walker: both expansions, the mapped
offset, and the originating attribute. -/
structure DeriveCtx where
  actual : WFile
  fake : WFile
  off : Nat
  originAttr : Attr

/-- The semantic-model expansion primitives consumed by the walker, plus
the two entry queries of `CompletionContext::new` (`descend_into_macros_single`
and `scope_at_offset` composed with `token.parent()`), and the
classification tail of `fill` (everything after the for-loop guard), which
is not the subject of the construction claims and is therefore kept
abstract. -/
structure WSema where
  expandAttr : Item → Option WFile
  specExpandAttr : Item → Item → WToken → Option (WFile × WToken)
  expandDeriveAttr : Attr → Option WFile
  specExpandDeriveAttr : Attr → Attr → WToken → Option (WFile × WToken)
  expandMac : MacroCall → Option WFile
  specExpandMac : MacroCall → Nat → WToken → Option (WFile × WToken)
  descendTok : WToken → WToken
  scopeAt : WToken → Nat → Option Unit
  classifyTail : WFile → WFile → Nat → Option DeriveCtx → WToken →
    Option Unit

/-- The mutable state of `expand_and_fill`'s loop: the original and
speculative trees, the cursor offset, and the placeholder token in the
speculative tree. -/
structure WalkState where
  original : WFile
  speculative : WFile
  offset : Nat
  fakeIdent : WToken

/-- Outcome of one `'expansion` iteration: `cont` re-enters the loop with a
new state (`continue 'expansion`), `halt` leaves it (`break 'expansion` or
the final fall-through `break`), carrying the recorded derive context if
any. -/
inductive StepRes
  | cont (st : WalkState)
  | halt (st : WalkState) (derive : Option DeriveCtx)

/-- The `'ancestors` loop over the synchronized item pairs: try real and
speculative attribute expansion on each pair; both failing walks to the
next pair, both succeeding adopts the expansions (unless the mapped offset
overruns the original expansion), exactly one succeeding stops the walk.
`none` means the pair list was exhausted with no expansion. -/
def attrStep (sema : WSema) (st : WalkState) :
    List (Item × Item) → Option StepRes
  | [] => none
  | (actualItem, fakeItem) :: rest =>
    match sema.expandAttr actualItem,
        sema.specExpandAttr actualItem fakeItem st.fakeIdent with
    | none, none => attrStep sema st rest
    | some actualExp, some (fakeExp, fakeTok) =>
      if fakeTok.tkStart > actualExp.stopOff then
        some (StepRes.halt st none)
      else
        some (StepRes.cont ⟨actualExp, fakeExp, fakeTok.tkStart, fakeTok⟩)
    | _, _ => some (StepRes.halt st none)

/-- One iteration of the `'expansion` loop: the attribute phase over the
zipped ancestor-item chains; then the token-tree lookups; then the derive
branch (which always ends the walk, recording a derive context exactly when
both pseudo-expansions succeed); then the function-like branch with its
path-divergence, missing-argument and out-of-range guards; and the final
fall-through stop. -/
def step (sema : WSema) (st : WalkState) : StepRes :=
  match attrStep sema st
      (List.zip (st.original.itemsAt st.offset)
        (st.speculative.itemsAt st.offset)) with
  | some r => r
  | none =>
    match st.original.ttAt st.offset with
    | none => StepRes.halt st none
    | some origTT =>
      match st.speculative.ttAt st.offset with
      | none => StepRes.halt st none
      | some specTT =>
        match origTT.parentAttr, specTT.parentAttr with
        | some origAttr, some specAttr =>
          (match sema.expandDeriveAttr origAttr,
              sema.specExpandDeriveAttr origAttr specAttr st.fakeIdent with
          | some actualExp, some (fakeExp, fakeTok) =>
            StepRes.halt st
              (some ⟨actualExp, fakeExp, fakeTok.tkStart, origAttr⟩)
          | _, _ => StepRes.halt st none)
        | _, _ =>
          match origTT.macCall, specTT.macCall with
          | some actualCall, some fakeCall =>
            if actualCall.pathText ≠ fakeCall.pathText then
              StepRes.halt st none
            else
              match fakeCall.argId with
              | none => StepRes.halt st none
              | some args =>
                match sema.expandMac actualCall,
                    sema.specExpandMac actualCall args st.fakeIdent with
                | some actualExp, some (fakeExp, fakeTok) =>
                  if fakeTok.tkStart > actualExp.stopOff then
                    StepRes.halt st none
                  else
                    StepRes.cont
                      ⟨actualExp, fakeExp, fakeTok.tkStart, fakeTok⟩
                | _, _ => StepRes.halt st none
          | _, _ => StepRes.halt st none

/-- The `'expansion` loop.  Each `cont` step strictly requires a successful
expansion; the fuel bounds the number of such steps (the source relies on
the external expansion recursion limit), and exhausting it behaves as a
stop on the current state. -/
def expandLoop (sema : WSema) : Nat → WalkState →
    WalkState × Option DeriveCtx
  | 0, st => (st, none)
  | Nat.succ fuel, st =>
    match step sema st with
    | StepRes.cont st2 => expandLoop sema fuel st2
    | StepRes.halt st2 d => (st2, d)

/-- The guard part of `CompletionContext::fill`: re-look up the placeholder
token at the final offset in the final speculative tree — the source
`unwrap`s this lookup, modelled as the `Except.error` outcome — then bail
out (silently, with no context) in a `for`-loop pattern position; the
remainder of `fill` is the abstract classification tail. -/
def fill (sema : WSema) (st : WalkState) (deriveCtx : Option DeriveCtx) :
    Except Unit (Option Unit) :=
  match st.speculative.tokenAtRight st.offset with
  | none => Except.error ()
  | some fakeTok =>
    if fakeTok.inForLoopTok then Except.ok none
    else Except.ok
      (sema.classifyTail st.original st.speculative st.offset deriveCtx
        fakeTok)

/-- `CompletionContext::expand_and_fill`: run the walk, then fill with the
final state and the recorded derive context. -/
def expand_and_fill (sema : WSema) (fuel : Nat)
    (originalFile specFile : WFile) (offset : Nat) (fakeTok : WToken) :
    Except Unit (Option Unit) :=
  fill sema
    (expandLoop sema fuel ⟨originalFile, specFile, offset, fakeTok⟩).1
    (expandLoop sema fuel ⟨originalFile, specFile, offset, fakeTok⟩).2

/-- `CompletionContext::new`: the right-biased placeholder lookup in the
tree with the inserted marker, the left-biased token lookup in the original
tree, the descent into macros and the scope lookup (each failure yielding
no context), then `expand_and_fill`.  `Except.ok none` is `None`,
`Except.ok (some _)` is a built context, `Except.error` a panic (which the
construction never produces, see C4). -/
def completionContextNew (sema : WSema) (fuel : Nat)
    (originalFile specFile : WFile) (offset : Nat) :
    Except Unit (Option Unit) :=
  match specFile.tokenAtRight offset with
  | none => Except.ok none
  | some fakeTok =>
    match originalFile.tokenAtLeft offset with
    | none => Except.ok none
    | some origTok =>
      match sema.scopeAt (sema.descendTok origTok) offset with
      | none => Except.ok none
      | some _ =>
        expand_and_fill sema fuel originalFile specFile offset fakeTok

/-- Coherence of the speculative expansion primitives, part of the external
interface contract: the mapped placeholder token returned by a speculative
expansion is a token of the returned expansion tree, so the right-biased
lookup at its start offset finds it (token ranges cover the tree and the
mapped token begins at that offset). -/
def WSema.Coherent (sema : WSema) : Prop :=
  (∀ a b t f tk, sema.specExpandAttr a b t = some (f, tk) →
    f.tokenAtRight tk.tkStart = some tk) ∧
  (∀ c args t f tk, sema.specExpandMac c args t = some (f, tk) →
    f.tokenAtRight tk.tkStart = some tk)

/-- The invariant the walk maintains: the placeholder token is found by the
right-biased lookup at the current offset in the current speculative
tree. -/
def Inv (st : WalkState) : Prop :=
  st.speculative.tokenAtRight st.offset = some st.fakeIdent

/-- The derive outcome of a walk iteration that reached the derive branch: a
derive context exactly when both the real and the speculative
pseudo-expansion succeed, nothing otherwise. -/
def deriveResult (sema : WSema) (origAttr specAttr : Attr) (t : WToken) :
    Option DeriveCtx :=
  match sema.expandDeriveAttr origAttr,
      sema.specExpandDeriveAttr origAttr specAttr t with
  | some actualExp, some (fakeExp, fakeTok) =>
    some ⟨actualExp, fakeExp, fakeTok.tkStart, origAttr⟩
  | _, _ => none

theorem attrStep_append_none (sema : WSema) (st : WalkState)
    (pre l : List (Item × Item))
    (h : ∀ p ∈ pre, sema.expandAttr p.1 = none ∧
      sema.specExpandAttr p.1 p.2 st.fakeIdent = none) :
    attrStep sema st (pre ++ l) = attrStep sema st l := by
  induction pre with
  | nil => rfl
  | cons p rest ih =>
    obtain ⟨a, b⟩ := p
    have h1 := (h (a, b) (by simp)).1
    have h2 := (h (a, b) (by simp)).2
    have ih2 := ih fun q hq => h q (by simp [hq])
    simpa [attrStep, h1, h2] using ih2

theorem attrStep_halt_state (sema : WSema) (st : WalkState)
    (l : List (Item × Item)) (st2 : WalkState) (d : Option DeriveCtx)
    (h : attrStep sema st l = some (StepRes.halt st2 d)) :
    st2 = st ∧ d = none := by
  induction l with
  | nil => exact absurd h (by simp [attrStep])
  | cons p rest ih =>
    obtain ⟨a, b⟩ := p
    rw [attrStep] at h
    cases h1 : sema.expandAttr a <;>
      cases h2 : sema.specExpandAttr a b st.fakeIdent <;>
        rw [h1, h2] at h
    · exact ih h
    · cases h; exact ⟨rfl, rfl⟩
    · cases h; exact ⟨rfl, rfl⟩
    · rename_i actualExp pr
      obtain ⟨fakeExp, fakeTok⟩ := pr
      dsimp only at h
      by_cases hgt : fakeTok.tkStart > actualExp.stopOff
      · rw [if_pos hgt] at h; cases h; exact ⟨rfl, rfl⟩
      · rw [if_neg hgt] at h; cases h

theorem attrStep_cont_spec (sema : WSema) (st : WalkState)
    (l : List (Item × Item)) (st2 : WalkState)
    (h : attrStep sema st l = some (StepRes.cont st2)) :
    ∃ a b fakeExp fakeTok,
      sema.specExpandAttr a b st.fakeIdent = some (fakeExp, fakeTok) ∧
        st2.speculative = fakeExp ∧ st2.offset = fakeTok.tkStart ∧
        st2.fakeIdent = fakeTok := by
  induction l with
  | nil => exact absurd h (by simp [attrStep])
  | cons p rest ih =>
    obtain ⟨a, b⟩ := p
    rw [attrStep] at h
    cases h1 : sema.expandAttr a <;>
      cases h2 : sema.specExpandAttr a b st.fakeIdent <;>
        rw [h1, h2] at h
    · exact ih h
    · cases h
    · cases h
    · rename_i actualExp pr
      obtain ⟨fakeExp, fakeTok⟩ := pr
      dsimp only at h
      by_cases hgt : fakeTok.tkStart > actualExp.stopOff
      · rw [if_pos hgt] at h; cases h
      · rw [if_neg hgt] at h
        cases h
        exact ⟨a, b, fakeExp, fakeTok, h2, rfl, rfl, rfl⟩

theorem step_halt_state (sema : WSema) (st st2 : WalkState)
    (d : Option DeriveCtx) (h : step sema st = StepRes.halt st2 d) :
    st2 = st := by
  unfold step at h
  split at h
  · rename_i r hr
    rw [h] at hr
    exact (attrStep_halt_state sema st _ st2 d hr).1
  · repeat' split at h
    all_goals try cases h
    all_goals rfl

theorem step_cont_inv (sema : WSema) (hc : WSema.Coherent sema)
    (st st2 : WalkState) (h : step sema st = StepRes.cont st2) :
    Inv st2 := by
  unfold step at h
  split at h
  · rename_i r hr
    rw [h] at hr
    obtain ⟨a, b, fakeExp, fakeTok, hsp, h1, h2, h3⟩ :=
      attrStep_cont_spec sema st _ st2 hr
    show st2.speculative.tokenAtRight st2.offset = some st2.fakeIdent
    rw [h1, h2, h3]
    exact hc.1 a b st.fakeIdent fakeExp fakeTok hsp
  · repeat' split at h
    all_goals cases h
    all_goals exact hc.2 _ _ _ _ _ (by assumption)

theorem expandLoop_fst_inv (sema : WSema) (hc : WSema.Coherent sema) :
    ∀ (fuel : Nat) (st : WalkState), Inv st →
      Inv (expandLoop sema fuel st).1 := by
  intro fuel
  induction fuel with
  | zero => intro st h; exact h
  | succ n ih =>
    intro st h
    unfold expandLoop
    cases hs : step sema st with
    | cont st2 => exact ih st2 (step_cont_inv sema hc st st2 hs)
    | halt st2 d =>
      simpa [step_halt_state sema st st2 d hs] using h

theorem step_stall (sema : WSema) (st : WalkState)
    (h1 : st.original.itemsAt st.offset = [])
    (h2 : st.original.ttAt st.offset = none) :
    step sema st = StepRes.halt st none := by
  unfold step
  rw [h1]
  simp only [List.zip_nil_left, attrStep]
  rw [h2]

theorem fill_ok (sema : WSema) (st : WalkState) (d : Option DeriveCtx)
    (h : Inv st) : ∃ res, fill sema st d = Except.ok res := by
  have h2 : st.speculative.tokenAtRight st.offset = some st.fakeIdent := h
  have h3 : fill sema st d =
      if st.fakeIdent.inForLoopTok then Except.ok none
      else Except.ok (sema.classifyTail st.original st.speculative st.offset
        d st.fakeIdent) := by
    unfold fill
    rw [h2]
  rw [h3]
  by_cases hf : st.fakeIdent.inForLoopTok
  · rw [if_pos hf]; exact ⟨none, rfl⟩
  · rw [if_neg hf]; exact ⟨_, rfl⟩

/-! Concrete fixtures used by the witnesses of the walker claims. -/

/-- A placeholder token at offset 0. -/
def tokNear : WToken := ⟨0, 1, false, 0⟩

/-- A placeholder token whose `inForLoopTok` flag is set. -/
def tokFor : WToken := ⟨0, 1, true, 2⟩

/-- A mapped token far beyond the sample expansions' ranges. -/
def tokFar : WToken := ⟨100, 101, false, 1⟩

/-- A sample item. -/
def item0 : Item := ⟨0⟩

/-- A sample attribute. -/
def attr0 : Attr := ⟨0⟩

/-- A sample expansion tree of text range ending at 10, holding `tokFar`. -/
def expA : WFile := ⟨10, fun _ => [], fun _ => none, fun _ => some tokFar,
  fun _ => none⟩

/-- A file with one enclosing item at every offset. -/
def fileItems : WFile := ⟨10, fun _ => [item0], fun _ => none,
  fun _ => some tokNear, fun _ => some tokNear⟩

/-- A file whose token tree at every offset belongs to a function-like
invocation with path text `m`. -/
def fileMac (pathTxt : String) : WFile :=
  ⟨10, fun _ => [], fun _ => some ⟨0, none, some ⟨some pathTxt, some 0⟩⟩,
    fun _ => some tokNear, fun _ => some tokNear⟩

/-- A file whose token tree at every offset sits under an attribute meta. -/
def fileDerive : WFile := ⟨10, fun _ => [], fun _ => some ⟨0, some attr0,
  none⟩, fun _ => some tokNear, fun _ => some tokNear⟩

/-- A file with nothing at any offset (both lookups miss). -/
def fileEmpty : WFile := ⟨10, fun _ => [], fun _ => none, fun _ => none,
  fun _ => none⟩

/-- A file with no items or token trees, whose token at every offset is the
for-loop-position token `tokFor`. -/
def fileFor : WFile := ⟨10, fun _ => [], fun _ => none, fun _ => some tokFor,
  fun _ => some tokFor⟩

/-- An oracle whose every expansion fails and whose scope lookup
succeeds. -/
def semaNone : WSema := ⟨fun _ => none, fun _ _ _ => none, fun _ => none,
  fun _ _ _ => none, fun _ => none, fun _ _ _ => none, id,
  fun _ _ => some (), fun _ _ _ _ _ => none⟩

/-- An oracle whose attribute expansions succeed with a mapped token out of
range of the original expansion. -/
def semaAttrFar : WSema := ⟨fun _ => some expA,
  fun _ _ _ => some (expA, tokFar), fun _ => none, fun _ _ _ => none,
  fun _ => none, fun _ _ _ => none, id, fun _ _ => some (),
  fun _ _ _ _ _ => none⟩

/-- An oracle whose function-like expansions succeed with a mapped token
out of range of the original expansion. -/
def semaMacFar : WSema := ⟨fun _ => none, fun _ _ _ => none, fun _ => none,
  fun _ _ _ => none, fun _ => some expA, fun _ _ _ => some (expA, tokFar),
  id, fun _ _ => some (), fun _ _ _ _ _ => none⟩

theorem semaNone_coherent : WSema.Coherent semaNone :=
  ⟨fun _ _ _ _ _ h => (nomatch h), fun _ _ _ _ _ h => (nomatch h)⟩

end Walk

end RAComp

/-! ## Theorems on expected-type/name inference -/

namespace RAComp

/-- C8: For a completion position that is the initializer of a let statement
with explicit type ascription, `let x: T = $0;`, the inference returns the
expected type `T` — the type the semantic model assigns to the pattern —
and the expected name `x`, the identifier of the simple identifier
pattern. -/
theorem c8_let_ascription (sema : Expect.ESema) (tok : Expect.TokenChain)
    (pid : Nat) (x : String) (T : Expect.Ty) (adj : Option Expect.Ty)
    (ini : Option Expect.EExpr) (rest : List Expect.ENode)
    (h : sema.type_of_pat (Expect.EPat.identPat pid (some x)) =
      some ⟨T, adj⟩) :
    Expect.expected_type_and_name sema tok
        (Expect.ENode.letStmt (some (Expect.EPat.identPat pid (some x)))
          ini :: rest) =
      (some T, some x) := by
  simp [Expect.expected_type_and_name, h, Option.orElse]

/-- Witness for C8: a concrete semantic oracle that assigns type `base 1`
to the pattern `x` makes the inference return that type and the name
`x`. -/
theorem c8_let_ascription_witness :
    Expect.expected_type_and_name
        ⟨fun _ => none,
         fun p => if p = Expect.EPat.identPat 0 (some "x") then
           some ⟨Expect.Ty.base 1, none⟩ else none,
         fun _ => none, fun _ => none, fun _ => none, fun _ => none⟩
        []
        [Expect.ENode.letStmt (some (Expect.EPat.identPat 0 (some "x")))
          none] =
      (some (Expect.Ty.base 1), some "x") := by
  exact c8_let_ascription _ _ 0 "x" (Expect.Ty.base 1) none none []
    (by simp)

/-- C9: For a completion position that is a call argument preceded by a
reference marker, `bar(&mut $0);`, where the active parameter has a
reference type `&mut T`: the inference strips exactly one reference layer
and returns expected type `T` with the expected name taken from the
parameter's identifier; and the reference marker is detected by skipping
back over identifier, whitespace and `mut` tokens to find `&` —
in particular a cursor token chain `whitespace, mut, &` satisfies
`has_ref`. -/
theorem c9_ref_argument (sema : Expect.ESema) (tok : Expect.TokenChain)
    (m : Bool) (T : Expect.Ty) (name : Option String)
    (rest : List Expect.ENode) (tl : Expect.TokenChain)
    (hap : sema.active_parameter tok = some ⟨Expect.Ty.ref m T, name⟩)
    (href : Expect.has_ref tok = true) :
    Expect.expected_type_and_name sema tok (Expect.ENode.argList :: rest) =
        (some T, name) ∧
      Expect.has_ref (Expect.TKind.whitespace :: Expect.TKind.mutKw ::
        Expect.TKind.amp :: tl) = true := by
  constructor
  · simp [Expect.expected_type_and_name, hap, href, Expect.Ty.removeRef]
  · rfl

/-- Witness for C9: a concrete oracle whose active parameter is `&mut base 0`
named `x`, with cursor token chain `whitespace, mut, &` (the `bar(&mut $0)`
shape), yields expected type `base 0` and name `x`. -/
theorem c9_ref_argument_witness :
    Expect.expected_type_and_name
        ⟨fun _ => none, fun _ => none, fun _ => none,
         fun t => if t = [Expect.TKind.whitespace, Expect.TKind.mutKw,
             Expect.TKind.amp] then
           some ⟨Expect.Ty.ref true (Expect.Ty.base 0), some "x"⟩ else none,
         fun _ => none, fun _ => none⟩
        [Expect.TKind.whitespace, Expect.TKind.mutKw, Expect.TKind.amp]
        [Expect.ENode.argList] =
      (some (Expect.Ty.base 0), some "x") := by
  exact (c9_ref_argument _ _ true (Expect.Ty.base 0) (some "x") [] []
    (by simp) (by rfl)).1

end RAComp

/-! ## Theorems for the visibility filter and the field-list provider -/

namespace RAComp

/-- C6: For every candidate item, the visibility filter returns a
three-valued result as the claim states it: Hidden (`Visible::No`) when the
item is not visible from the completion-site module and private-editable
completions are disabled; when they are enabled, Editable if the defining
crate's source root is not read-only, else Hidden; additionally Hidden
whenever the item is marked `doc(hidden)` and its defining crate differs
from the completion-site crate, while same-crate `doc(hidden)` items remain
visible; otherwise Visible.  Proved as: `is_visible_impl` agrees with the
clause-for-clause restatement of the claim on every input. -/
theorem c6_visibility_filter :
    ∀ (epe vis lib hid same : Bool),
      Vis.is_visible_impl ⟨epe⟩ ⟨vis, lib, hid, same⟩ =
        Vis.visibleSpec ⟨epe⟩ ⟨vis, lib, hid, same⟩ := by
  decide

/-- C7: For every completion context in a record-field-name position or in a
tuple-struct type slot (with no visibility node already written in the
matched path shape), the field-list provider offers exactly the three
visibility-keyword snippets `pub(crate)`, `pub(super)`, `pub`; if a
visibility token already precedes the cursor (`vis_node` present), it
offers none of them. -/
theorem c7_field_list_keywords (ctx : Field.FCompletionCtx)
    (h : ctx.ident_ctx = Field.FIdentCtx.nameCtx Field.FNameKind.recordField ∨
         ctx.ident_ctx = Field.FIdentCtx.nameRefCtx (some ⟨false, false, none,
           none, Field.FPathKind.typeKind true, false⟩)) :
    (ctx.vis_node = none →
      Field.complete_field_list ctx = ["pub(crate)", "pub(super)", "pub"]) ∧
    (∀ u, ctx.vis_node = some u → Field.complete_field_list ctx = []) := by
  have hpos : Field.field_list_position ctx.ident_ctx = true := by
    rcases h with h | h <;> rw [h] <;> rfl
  constructor
  · intro hv
    simp [Field.complete_field_list, hpos, hv]
  · intro u hv
    simp [Field.complete_field_list, hpos, hv]

/-- Witness for C7: in a concrete record-field-name context with no
visibility node the provider yields exactly the three snippets, and with a
visibility node present it yields none. -/
theorem c7_field_list_keywords_witness :
    Field.complete_field_list ⟨Field.FIdentCtx.nameCtx
        Field.FNameKind.recordField, none⟩ =
      ["pub(crate)", "pub(super)", "pub"] ∧
    Field.complete_field_list ⟨Field.FIdentCtx.nameCtx
        Field.FNameKind.recordField, some ()⟩ = [] := by
  refine ⟨(c7_field_list_keywords _ (Or.inl rfl)).1 rfl,
    (c7_field_list_keywords _ (Or.inl rfl)).2 () rfl⟩

end RAComp

/-! ## Theorems on the dual-tree expansion walker -/

namespace RAComp

/-- C2: In every iteration of the walk — in the attribute-macro branch as in
the function-like branch — if both expansions succeed but the start offset
of the mapped placeholder token in the speculative expansion exceeds the
end of the original expansion's text range, the walk stops at that step:
the iteration yields a halt on the pre-expansion state, the loop returns
the pre-expansion trees and offset for classification, and the new
expansions are not adopted. -/
theorem c2_out_of_range_guard :
    (∀ (sema : Walk.WSema) (st : Walk.WalkState)
        (pre rest : List (Walk.Item × Walk.Item))
        (actualItem fakeItem : Walk.Item) (actualExp fakeExp : Walk.WFile)
        (fakeTok : Walk.WToken) (fuel : Nat),
      List.zip (st.original.itemsAt st.offset)
          (st.speculative.itemsAt st.offset) =
        pre ++ (actualItem, fakeItem) :: rest →
      (∀ p ∈ pre, sema.expandAttr p.1 = none ∧
        sema.specExpandAttr p.1 p.2 st.fakeIdent = none) →
      sema.expandAttr actualItem = some actualExp →
      sema.specExpandAttr actualItem fakeItem st.fakeIdent =
        some (fakeExp, fakeTok) →
      fakeTok.tkStart > actualExp.stopOff →
      Walk.step sema st = Walk.StepRes.halt st none ∧
        Walk.expandLoop sema (fuel + 1) st = (st, none)) ∧
    (∀ (sema : Walk.WSema) (st : Walk.WalkState)
        (origTT specTT : Walk.TokenTree)
        (actualCall fakeCall : Walk.MacroCall) (args : Nat)
        (actualExp fakeExp : Walk.WFile) (fakeTok : Walk.WToken)
        (fuel : Nat),
      (∀ p ∈ List.zip (st.original.itemsAt st.offset)
          (st.speculative.itemsAt st.offset),
        sema.expandAttr p.1 = none ∧
          sema.specExpandAttr p.1 p.2 st.fakeIdent = none) →
      st.original.ttAt st.offset = some origTT →
      st.speculative.ttAt st.offset = some specTT →
      origTT.parentAttr = none →
      origTT.macCall = some actualCall →
      specTT.macCall = some fakeCall →
      actualCall.pathText = fakeCall.pathText →
      fakeCall.argId = some args →
      sema.expandMac actualCall = some actualExp →
      sema.specExpandMac actualCall args st.fakeIdent =
        some (fakeExp, fakeTok) →
      fakeTok.tkStart > actualExp.stopOff →
      Walk.step sema st = Walk.StepRes.halt st none ∧
        Walk.expandLoop sema (fuel + 1) st = (st, none)) := by
  constructor
  · intro sema st pre rest actualItem fakeItem actualExp fakeExp fakeTok
      fuel hzip hpre ha hs hgt
    have hstep : Walk.step sema st = Walk.StepRes.halt st none := by
      unfold Walk.step
      rw [hzip, Walk.attrStep_append_none sema st pre _ hpre]
      rw [Walk.attrStep]
      rw [ha, hs]
      simp [hgt]
    exact ⟨hstep, by rw [Walk.expandLoop, hstep]⟩
  · intro sema st origTT specTT actualCall fakeCall args actualExp fakeExp
      fakeTok fuel hattr ho hsp hpa hmc0 hmc1 hpath hargs hexp hsexp hgt
    have hnone : Walk.attrStep sema st
        (List.zip (st.original.itemsAt st.offset)
          (st.speculative.itemsAt st.offset)) = none := by
      have := Walk.attrStep_append_none sema st _ [] hattr
      simpa using this
    have hstep : Walk.step sema st = Walk.StepRes.halt st none := by
      unfold Walk.step
      rw [hnone]
      simp only [ho, hsp, hpa, hmc0, hmc1, hargs, hexp, hsexp]
      simp [hpath, hgt]
    exact ⟨hstep, by rw [Walk.expandLoop, hstep]⟩

end RAComp

namespace RAComp

/-- Witness for C2: with a sample oracle whose attribute expansion maps the
placeholder to offset 100 while the original expansion ends at 10, and a
sample oracle doing the same for a function-like call, the iteration halts
on the unchanged state in both branches. -/
theorem c2_out_of_range_guard_witness :
    (Walk.step Walk.semaAttrFar ⟨Walk.fileItems, Walk.fileItems, 0,
          Walk.tokNear⟩ =
        Walk.StepRes.halt ⟨Walk.fileItems, Walk.fileItems, 0, Walk.tokNear⟩
          none ∧
      Walk.expandLoop Walk.semaAttrFar 1
          ⟨Walk.fileItems, Walk.fileItems, 0, Walk.tokNear⟩ =
        (⟨Walk.fileItems, Walk.fileItems, 0, Walk.tokNear⟩, none)) ∧
    (Walk.step Walk.semaMacFar ⟨Walk.fileMac "m", Walk.fileMac "m", 0,
          Walk.tokNear⟩ =
        Walk.StepRes.halt ⟨Walk.fileMac "m", Walk.fileMac "m", 0,
          Walk.tokNear⟩ none ∧
      Walk.expandLoop Walk.semaMacFar 1
          ⟨Walk.fileMac "m", Walk.fileMac "m", 0, Walk.tokNear⟩ =
        (⟨Walk.fileMac "m", Walk.fileMac "m", 0, Walk.tokNear⟩, none)) := by
  constructor
  · exact c2_out_of_range_guard.1 Walk.semaAttrFar _ [] [] Walk.item0
      Walk.item0 Walk.expA Walk.expA Walk.tokFar 0 rfl (by simp) rfl rfl
      (by decide)
  · exact c2_out_of_range_guard.2 Walk.semaMacFar _
      ⟨0, none, some ⟨some "m", some 0⟩⟩ ⟨0, none, some ⟨some "m", some 0⟩⟩
      ⟨some "m", some 0⟩ ⟨some "m", some 0⟩ 0 Walk.expA Walk.expA
      Walk.tokFar 0 (by simp [Walk.fileMac]) rfl rfl rfl rfl rfl rfl rfl
      rfl rfl (by decide)

/-- C3: In every iteration that reaches the function-like macro branch, if
the text of the macro invocation's path differs between the original and
the speculative tree, no expansion is performed at that step and the
previously established tree pair and offset are retained for
classification. -/
theorem c3_path_divergence_guard (sema : Walk.WSema) (st : Walk.WalkState)
    (origTT specTT : Walk.TokenTree)
    (actualCall fakeCall : Walk.MacroCall) (fuel : Nat)
    (hattr : ∀ p ∈ List.zip (st.original.itemsAt st.offset)
        (st.speculative.itemsAt st.offset),
      sema.expandAttr p.1 = none ∧
        sema.specExpandAttr p.1 p.2 st.fakeIdent = none)
    (ho : st.original.ttAt st.offset = some origTT)
    (hsp : st.speculative.ttAt st.offset = some specTT)
    (hpa : origTT.parentAttr = none)
    (hmc0 : origTT.macCall = some actualCall)
    (hmc1 : specTT.macCall = some fakeCall)
    (hne : actualCall.pathText ≠ fakeCall.pathText) :
    Walk.step sema st = Walk.StepRes.halt st none ∧
      Walk.expandLoop sema (fuel + 1) st = (st, none) := by
  have hnone : Walk.attrStep sema st
      (List.zip (st.original.itemsAt st.offset)
        (st.speculative.itemsAt st.offset)) = none := by
    have := Walk.attrStep_append_none sema st _ [] hattr
    simpa using this
  have hstep : Walk.step sema st = Walk.StepRes.halt st none := by
    unfold Walk.step
    rw [hnone]
    simp only [ho, hsp, hpa, hmc0, hmc1]
    simp [hne]
  exact ⟨hstep, by rw [Walk.expandLoop, hstep]⟩

/-- Witness for C3: with original path text `a` and speculative path text
`b` at the cursor's token tree, the iteration halts on the unchanged
state. -/
theorem c3_path_divergence_guard_witness :
    Walk.step Walk.semaNone ⟨Walk.fileMac "a", Walk.fileMac "b", 0,
        Walk.tokNear⟩ =
      Walk.StepRes.halt ⟨Walk.fileMac "a", Walk.fileMac "b", 0,
        Walk.tokNear⟩ none ∧
      Walk.expandLoop Walk.semaNone 1
          ⟨Walk.fileMac "a", Walk.fileMac "b", 0, Walk.tokNear⟩ =
        (⟨Walk.fileMac "a", Walk.fileMac "b", 0, Walk.tokNear⟩, none) :=
  c3_path_divergence_guard Walk.semaNone _
    ⟨0, none, some ⟨some "a", some 0⟩⟩ ⟨0, none, some ⟨some "b", some 0⟩⟩
    ⟨some "a", some 0⟩ ⟨some "b", some 0⟩ 0 (by simp [Walk.fileMac]) rfl
    rfl rfl rfl rfl (by decide)

end RAComp

namespace RAComp.Walk

theorem attrStep_none_of_all (sema : WSema) (st : WalkState)
    (l : List (Item × Item))
    (h : ∀ p ∈ l, sema.expandAttr p.1 = none ∧
      sema.specExpandAttr p.1 p.2 st.fakeIdent = none) :
    attrStep sema st l = none := by
  have := attrStep_append_none sema st l [] h
  simpa using this

theorem attrStep_congr (sema sema2 : WSema) (st : WalkState)
    (h1 : sema2.expandAttr = sema.expandAttr)
    (h2 : sema2.specExpandAttr = sema.specExpandAttr)
    (l : List (Item × Item)) :
    attrStep sema2 st l = attrStep sema st l := by
  induction l with
  | nil => rfl
  | cons p rest ih =>
    obtain ⟨a, b⟩ := p
    simp only [attrStep, h1, h2, ih]

theorem step_derive (sema : WSema) (st : WalkState)
    (origTT specTT : TokenTree) (origAttr specAttr : Attr)
    (hnone : attrStep sema st
      (List.zip (st.original.itemsAt st.offset)
        (st.speculative.itemsAt st.offset)) = none)
    (ho : st.original.ttAt st.offset = some origTT)
    (hsp : st.speculative.ttAt st.offset = some specTT)
    (hoa : origTT.parentAttr = some origAttr)
    (hsa : specTT.parentAttr = some specAttr) :
    step sema st =
      StepRes.halt st (deriveResult sema origAttr specAttr st.fakeIdent) := by
  unfold step
  rw [hnone]
  simp only [ho, hsp, hoa, hsa]
  unfold deriveResult
  cases hd : sema.expandDeriveAttr origAttr with
  | none =>
    cases hs2 : sema.specExpandDeriveAttr origAttr specAttr st.fakeIdent
      with
    | none => rfl
    | some pr => obtain ⟨fE, tk⟩ := pr; rfl
  | some aE =>
    cases hs2 : sema.specExpandDeriveAttr origAttr specAttr st.fakeIdent
      with
    | none => rfl
    | some pr => obtain ⟨fE, tk⟩ := pr; rfl

end RAComp.Walk

namespace RAComp

/-- C10: Whenever the walk finds the enclosing macro-argument token tree at
the offset sitting directly under an attribute's meta node in both trees,
that iteration is the walk's last: it halts on the unchanged state,
recording a derive context exactly when both pseudo-expansions succeed
(`deriveResult`), the loop returns that state, and the outcome does not
consult the function-like expansion primitives — any oracle agreeing on
the attribute and derive primitives yields the same iteration result. -/
theorem c10_derive_branch_ends_walk (sema : Walk.WSema)
    (st : Walk.WalkState) (origTT specTT : Walk.TokenTree)
    (origAttr specAttr : Walk.Attr) (fuel : Nat)
    (hattr : ∀ p ∈ List.zip (st.original.itemsAt st.offset)
        (st.speculative.itemsAt st.offset),
      sema.expandAttr p.1 = none ∧
        sema.specExpandAttr p.1 p.2 st.fakeIdent = none)
    (ho : st.original.ttAt st.offset = some origTT)
    (hsp : st.speculative.ttAt st.offset = some specTT)
    (hoa : origTT.parentAttr = some origAttr)
    (hsa : specTT.parentAttr = some specAttr) :
    Walk.step sema st =
      Walk.StepRes.halt st
        (Walk.deriveResult sema origAttr specAttr st.fakeIdent) ∧
    Walk.expandLoop sema (fuel + 1) st =
      (st, Walk.deriveResult sema origAttr specAttr st.fakeIdent) ∧
    (Walk.deriveResult sema origAttr specAttr st.fakeIdent ≠ none ↔
      sema.expandDeriveAttr origAttr ≠ none ∧
        sema.specExpandDeriveAttr origAttr specAttr st.fakeIdent ≠ none) ∧
    (∀ sema2 : Walk.WSema,
      sema2.expandAttr = sema.expandAttr →
      sema2.specExpandAttr = sema.specExpandAttr →
      sema2.expandDeriveAttr = sema.expandDeriveAttr →
      sema2.specExpandDeriveAttr = sema.specExpandDeriveAttr →
      Walk.step sema2 st = Walk.step sema st) := by
  have hnone := Walk.attrStep_none_of_all sema st _ hattr
  have hstep := Walk.step_derive sema st origTT specTT origAttr specAttr
    hnone ho hsp hoa hsa
  refine ⟨hstep, by rw [Walk.expandLoop, hstep], ?_, ?_⟩
  · unfold Walk.deriveResult
    cases hd : sema.expandDeriveAttr origAttr with
    | none =>
      cases hs2 : sema.specExpandDeriveAttr origAttr specAttr st.fakeIdent
        with
      | none => simp
      | some pr => obtain ⟨fE, tk⟩ := pr; simp
    | some aE =>
      cases hs2 : sema.specExpandDeriveAttr origAttr specAttr st.fakeIdent
        with
      | none => simp
      | some pr => obtain ⟨fE, tk⟩ := pr; simp
  · intro sema2 h1 h2 h3 h4
    have hnone2 : Walk.attrStep sema2 st
        (List.zip (st.original.itemsAt st.offset)
          (st.speculative.itemsAt st.offset)) = none := by
      rw [Walk.attrStep_congr sema sema2 st h1 h2]
      exact hnone
    have hstep2 := Walk.step_derive sema2 st origTT specTT origAttr
      specAttr hnone2 ho hsp hoa hsa
    rw [hstep, hstep2]
    unfold Walk.deriveResult
    rw [h3, h4]

/-- Witness for C10: with both token trees under the sample attribute and
an oracle whose derive expansions fail, the iteration halts on the
unchanged state recording no derive context, and the all-failing oracle
itself trivially instantiates the oracle-independence part. -/
theorem c10_derive_branch_ends_walk_witness :
    Walk.step Walk.semaNone ⟨Walk.fileDerive, Walk.fileDerive, 0,
        Walk.tokNear⟩ =
      Walk.StepRes.halt ⟨Walk.fileDerive, Walk.fileDerive, 0, Walk.tokNear⟩
        (Walk.deriveResult Walk.semaNone Walk.attr0 Walk.attr0
          Walk.tokNear) ∧
    Walk.expandLoop Walk.semaNone 1
        ⟨Walk.fileDerive, Walk.fileDerive, 0, Walk.tokNear⟩ =
      (⟨Walk.fileDerive, Walk.fileDerive, 0, Walk.tokNear⟩,
        Walk.deriveResult Walk.semaNone Walk.attr0 Walk.attr0
          Walk.tokNear) := by
  have h := c10_derive_branch_ends_walk Walk.semaNone
    ⟨Walk.fileDerive, Walk.fileDerive, 0, Walk.tokNear⟩
    ⟨0, some Walk.attr0, none⟩ ⟨0, some Walk.attr0, none⟩
    Walk.attr0 Walk.attr0 0 (by simp [Walk.fileDerive]) rfl rfl rfl rfl
  exact ⟨h.1, h.2.1⟩

end RAComp

namespace RAComp

/-- C4: Context construction is total over its failure modes: for every
input position and coherent expansion oracle, `CompletionContext::new`
either returns a context or returns no result — it never aborts.  In
particular the re-lookup of the placeholder token at the final offset
inside `fill`, which the source unwraps, always succeeds whenever `fill`
is reached, because the walk preserves the invariant that the placeholder
token is found at the current offset of the current speculative tree. -/
theorem c4_construction_never_aborts (sema : Walk.WSema) (fuel : Nat)
    (originalFile specFile : Walk.WFile) (offset : Nat)
    (hc : Walk.WSema.Coherent sema) :
    ∃ res, Walk.completionContextNew sema fuel originalFile specFile offset
      = Except.ok res := by
  unfold Walk.completionContextNew
  cases h1 : specFile.tokenAtRight offset with
  | none => exact ⟨none, rfl⟩
  | some fakeTok =>
    dsimp only
    cases h2 : originalFile.tokenAtLeft offset with
    | none => exact ⟨none, rfl⟩
    | some origTok =>
      dsimp only
      cases h3 : sema.scopeAt (sema.descendTok origTok) offset with
      | none => exact ⟨none, rfl⟩
      | some u =>
        dsimp only
        exact Walk.fill_ok sema _ _
          (Walk.expandLoop_fst_inv sema hc fuel
            ⟨originalFile, specFile, offset, fakeTok⟩ h1)

/-- Witness for C4: construction with the all-failing (hence coherent)
oracle on a sample file returns an `ok` outcome. -/
theorem c4_construction_never_aborts_witness :
    ∃ res, Walk.completionContextNew Walk.semaNone 1 Walk.fileFor
      Walk.fileFor 0 = Except.ok res :=
  c4_construction_never_aborts Walk.semaNone 1 Walk.fileFor Walk.fileFor 0
    Walk.semaNone_coherent

/-- C5: Context construction returns no result in the builder's stated
failure cases at the entry boundary: when the right-biased token lookup at
the cursor offset in the speculative tree misses, when the left-biased
token lookup at the same offset in the original tree misses, and when the
offset sits in a `for`-loop pattern position where only the `in` keyword
could follow (stated for an entry position with no enclosing expandable
item or token tree, so the walk leaves the entry state unchanged). -/
theorem c5_entry_failure_cases (sema : Walk.WSema) (fuel : Nat)
    (originalFile specFile : Walk.WFile) (offset : Nat) :
    (specFile.tokenAtRight offset = none →
      Walk.completionContextNew sema fuel originalFile specFile offset =
        Except.ok none) ∧
    (originalFile.tokenAtLeft offset = none →
      Walk.completionContextNew sema fuel originalFile specFile offset =
        Except.ok none) ∧
    (∀ fakeTok : Walk.WToken,
      specFile.tokenAtRight offset = some fakeTok →
      fakeTok.inForLoopTok = true →
      originalFile.itemsAt offset = [] →
      originalFile.ttAt offset = none →
      Walk.completionContextNew sema fuel originalFile specFile offset =
        Except.ok none) := by
  refine ⟨?_, ?_, ?_⟩
  · intro h
    unfold Walk.completionContextNew
    simp only [h]
  · intro h
    unfold Walk.completionContextNew
    cases h1 : specFile.tokenAtRight offset with
    | none => rfl
    | some fakeTok => dsimp only; simp only [h]
  · intro fakeTok h1 h2 h3 h4
    unfold Walk.completionContextNew
    simp only [h1]
    cases h5 : originalFile.tokenAtLeft offset with
    | none => rfl
    | some origTok =>
      dsimp only
      cases h6 : sema.scopeAt (sema.descendTok origTok) offset with
      | none => rfl
      | some u =>
        dsimp only
        show Walk.expand_and_fill sema fuel originalFile specFile offset
          fakeTok = Except.ok none
        have hstall : Walk.expandLoop sema fuel
            ⟨originalFile, specFile, offset, fakeTok⟩ =
            (⟨originalFile, specFile, offset, fakeTok⟩, none) := by
          cases fuel with
          | zero => rfl
          | succ n => rw [Walk.expandLoop, Walk.step_stall sema _ h3 h4]
        unfold Walk.expand_and_fill
        rw [hstall]
        unfold Walk.fill
        simp only [h1]
        simp [h2]

/-- Witness for C5: all three entry failure cases on concrete files — a
missing right-biased speculative lookup, a missing left-biased original
lookup, and a `for`-loop-position token — yield `None`. -/
theorem c5_entry_failure_cases_witness :
    Walk.completionContextNew Walk.semaNone 1 Walk.fileFor Walk.fileEmpty 0
      = Except.ok none ∧
    Walk.completionContextNew Walk.semaNone 1 Walk.fileEmpty Walk.fileFor 0
      = Except.ok none ∧
    Walk.completionContextNew Walk.semaNone 1 Walk.fileFor Walk.fileFor 0
      = Except.ok none :=
  ⟨(c5_entry_failure_cases Walk.semaNone 1 Walk.fileFor Walk.fileEmpty
      0).1 rfl,
    (c5_entry_failure_cases Walk.semaNone 1 Walk.fileEmpty Walk.fileFor
      0).2.1 rfl,
    (c5_entry_failure_cases Walk.semaNone 1 Walk.fileFor Walk.fileFor
      0).2.2 Walk.tokFor rfl rfl rfl rfl⟩

end RAComp

/-! ## Name classification and pattern contexts with node provenance
(`context.rs`, `classify_name`, `pattern_context_for`,
`find_node_in_file_compensated`).

Every node and token of this model carries a provenance tag naming the
parse tree it belongs to.  The input `name` handed to `classify_name` is
the name-like node found in the file with the inserted placeholder (the
speculative tree, `fill` line `find_node_at_offset(&file_with_fake_ident,
offset)`), so it and everything reached through its parent links carry the
speculative tag; lookups through the original file return nodes carrying
the original tag. -/

namespace RAComp.Classify

/-- Provenance of a node or token: the tree it was created in. -/
inductive Prov
  | original
  | speculative
deriving DecidableEq, Repr

/-- A syntax token with its provenance. -/
structure CTok where
  ctId : Nat
  prov : Prov
deriving DecidableEq, Repr

/-- The pattern shapes handed to `pattern_context_for`: an identifier
pattern carrying its `ref_token()` / `mut_token()`, and the tuple-struct,
record and path patterns of the name-reference classifier. -/
inductive PatKindC
  | identPatK (ref_token mut_token : Option CTok)
  | tupleStructK
  | recordK
  | pathK
deriving DecidableEq, Repr

/-- The ancestor kinds `pattern_context_for` and `classify_name`
distinguish: an ancestor that is itself a pattern; a `RecordPatField`
(with whether it has a `name_ref()`); the first-non-pattern-ancestor kinds
of the refutability dispatch (`LetStmt` and `Param` with whether a type
ascription is present, `MatchArm`, `LetExpr`, `ForExpr`); a `ParamList`;
anything else. -/
inductive AncKind
  | patAnc
  | recordPatFieldAnc (has_name_ref : Bool)
  | letStmtAnc (has_ty : Bool)
  | paramAnc (has_ty : Bool)
  | matchArmAnc
  | letExprAnc
  | forExprAnc
  | paramListAnc
  | otherAnc
deriving DecidableEq, Repr

/-- A syntax node on an ancestor chain: kind, text range and provenance. -/
structure AncNode where
  anId : Nat
  kind : AncKind
  rangeStart : Nat
  rangeEnd : Nat
  prov : Prov
deriving DecidableEq, Repr

/-- A pattern node: its shape, provenance, and its chain of strict
ancestors, nearest first. -/
structure CPat where
  patId : Nat
  kind : PatKindC
  prov : Prov
  ancestors : List AncNode
deriving DecidableEq, Repr

/-- The classified parent of a `ParamList` found in the original file:
`ClosureExpr`, `Fn`, or anything else. -/
inductive OwnerKind
  | closureOwner (oid : Nat)
  | fnOwner (oid : Nat)
  | otherOwner
deriving DecidableEq, Repr

/-- A `ParamList` node as found in the original file, with its parent's
classification (`param_list.syntax().parent()`). -/
structure ParamListNode where
  plId : Nat
  prov : Prov
  owner : Option OwnerKind
deriving DecidableEq, Repr

/-- `ParamKind`: the owner of the parameter list, a function or a
closure. -/
inductive ParamKindC
  | functionK (oid : Nat)
  | closureK (oid : Nat)
deriving DecidableEq, Repr

/-- `PatternRefutability`. -/
inductive PatRefut
  | refutable
  | irrefutable
deriving DecidableEq, Repr

/-- The parent shapes of a name node that `classify_name` dispatches on.
The `IdentPat` parent carries the binding pattern itself; the `Module`
parent carries the module node stored into `NameKind::Module`. -/
inductive NameParentK
  | constP
  | constParamP
  | enumP
  | fnP
  | identPatP (bind_pat : CPat)
  | macroDefP
  | macroRulesP
  | moduleP (modId : Nat) (modProv : Prov)
  | recordFieldP
  | renameP
  | selfParamP
  | staticP
  | structP
  | traitP
  | typeAliasP
  | typeParamP
  | unionP
  | variantP
  | otherP
deriving DecidableEq, Repr

/-- An `ast::Name` node: identity, provenance, the start offset of its
text range, and its parent shape (`None` when it has no parent). -/
structure CNameNode where
  nameId : Nat
  prov : Prov
  startOff : Nat
  parent : Option NameParentK
deriving DecidableEq, Repr

/-- The original parse tree, through the queries this classifier issues
against it: its text range, the covering-element `ParamList` lookup used by
`find_node_in_file_compensated`, and the `find_node_at_offset::<ast::Name>`
lookup. -/
structure COrigFile where
  rangeStart : Nat
  rangeEnd : Nat
  coveringParamList : Nat → Nat → Option ParamListNode
  findNameAt : Nat → Option CNameNode

/-- `COMPLETION_MARKER`, the placeholder identifier. -/
def COMPLETION_MARKER : String := "intellijRulezz"

/-- `find_node_in_file_compensated` at its `ParamList` use site: shrink the
node's range by the marker length (`checked_sub`, failing when the range
cannot pay for it or would invert), intersect with the file's range, and
run the covering-element ancestor lookup. -/
def find_node_in_file_compensated (syntaxFile : COrigFile)
    (rangeStart rangeEnd : Nat) : Option ParamListNode :=
  if rangeEnd < COMPLETION_MARKER.length then none
  else
    let e := rangeEnd - COMPLETION_MARKER.length
    if e < rangeStart then none
    else
      let s2 := max rangeStart syntaxFile.rangeStart
      let e2 := min e syntaxFile.rangeEnd
      if s2 ≤ e2 then syntaxFile.coveringParamList s2 e2 else none

/-- `ast::Pat::can_cast` over the ancestor kinds. -/
def isPatNodeKind : AncKind → Bool
  | AncKind.patAnc => true
  | _ => false

/-- The `(ref_token, mut_token)` pair read off the pattern: the identifier
pattern's modifier tokens, nothing for any other pattern. -/
def pat_ref_mut (p : CPat) : Option CTok × Option CTok :=
  match p.kind with
  | PatKindC.identPatK r m => (r, m)
  | _ => (none, none)

/-- The parameter-context closure of the `Param` arm: the parameter's
parent must be a `ParamList` (in the speculative chain); that list is
re-located in the original file with marker-length compensation; its
parent picks the owner kind, a closure or a function, anything else
failing.  The stored triple keeps the *speculative* `param` node itself
together with the re-located list. -/
def paramCtxFor (original_file : COrigFile) (param : AncNode)
    (rest : List AncNode) :
    Option (ParamListNode × AncNode × ParamKindC) :=
  match rest with
  | [] => none
  | fakeParamList :: _ =>
    if fakeParamList.kind = AncKind.paramListAnc then
      match find_node_in_file_compensated original_file
          fakeParamList.rangeStart fakeParamList.rangeEnd with
      | none => none
      | some param_list =>
        match param_list.owner with
        | some (OwnerKind.closureOwner oid) =>
          some (param_list, param, ParamKindC.closureK oid)
        | some (OwnerKind.fnOwner oid) =>
          some (param_list, param, ParamKindC.functionK oid)
        | some OwnerKind.otherOwner => none
        | none => none
    else none

/-- The refutability dispatch of `pattern_context_for` on the first
non-pattern ancestor: `LetStmt`/`Param` are irrefutable recording the type
ascription (the `Param` arm also building the parameter context),
`MatchArm`/`LetExpr` refutable, `ForExpr` and everything else irrefutable
with no ascription; no such ancestor defaults to irrefutable. -/
def pattern_refutability_info (original_file : COrigFile) :
    List AncNode →
      PatRefut × Bool × Option (ParamListNode × AncNode × ParamKindC)
  | [] => (PatRefut.irrefutable, false, none)
  | node :: rest =>
    match node.kind with
    | AncKind.letStmtAnc has_ty => (PatRefut.irrefutable, has_ty, none)
    | AncKind.paramAnc has_ty =>
      (PatRefut.irrefutable, has_ty, paramCtxFor original_file node rest)
    | AncKind.matchArmAnc => (PatRefut.refutable, false, none)
    | AncKind.letExprAnc => (PatRefut.refutable, false, none)
    | AncKind.forExprAnc => (PatRefut.irrefutable, false, none)
    | _ => (PatRefut.irrefutable, false, none)

/-- The built pattern context.  `parent_pat`, `ref_token`, `mut_token` and
the middle component of `param_ctx` are nodes or tokens of the input
pattern's own tree. -/
structure PatternContextC where
  refutability : PatRefut
  param_ctx : Option (ParamListNode × AncNode × ParamKindC)
  has_type_ascription : Bool
  parent_pat : Option AncNode
  ref_token : Option CTok
  mut_token : Option CTok
deriving DecidableEq, Repr

/-- `pattern_context_for`: skip the ancestors that are themselves patterns
(the chain walked includes the pattern itself, which always is one, so the
skip runs on the strict ancestors), dispatch on the first non-pattern
ancestor, and record the immediate parent pattern and the identifier
pattern's `ref`/`mut` tokens. -/
def pattern_context_for (original_file : COrigFile) (pat : CPat) :
    PatternContextC :=
  let rht := pattern_refutability_info original_file
    (pat.ancestors.dropWhile fun n => isPatNodeKind n.kind)
  { refutability := rht.1
    param_ctx := rht.2.2
    has_type_ascription := rht.2.1
    parent_pat := pat.ancestors.head?.bind
      (fun n => if isPatNodeKind n.kind then some n else none)
    ref_token := (pat_ref_mut pat).1
    mut_token := (pat_ref_mut pat).2 }

/-- The `is_name_in_field_pat` test of the `IdentPat` arm of
`classify_name`: the binding's parent is a `RecordPatField` without a
`name_ref()`. -/
def is_name_in_field_pat (bind_pat : CPat) : Bool :=
  match bind_pat.ancestors.head? with
  | some n =>
    match n.kind with
    | AncKind.recordPatFieldAnc has_name_ref => !has_name_ref
    | _ => false
  | none => false

/-- The name kinds produced by `classify_name`; the `Module` variant keeps
the module node (with its provenance). -/
inductive NameKindC
  | constN
  | constParamN
  | enumN
  | functionN
  | identPatN
  | macroDefN
  | macroRulesN
  | moduleN (modId : Nat) (modProv : Prov)
  | recordFieldN
  | renameN
  | selfParamN
  | staticN
  | structN
  | traitN
  | typeAliasN
  | typeParamN
  | unionN
  | variantN
deriving DecidableEq, Repr

/-- `NameContext`: the name re-located in the original file and the
kind. -/
structure NameContextC where
  name : Option CNameNode
  kind : NameKindC
deriving DecidableEq, Repr

/-- `classify_name`: dispatch on the parent's kind (failing on an
unrecognized parent or a missing one), build a pattern context for an
identifier-pattern binding that is not a field-pattern shorthand, and
re-locate the name node in the original file at the name's start
offset. -/
def classify_name (original_file : COrigFile) (name : CNameNode) :
    Option (NameContextC × Option PatternContextC) :=
  match name.parent with
  | none => none
  | some parent =>
    let kp : Option (NameKindC × Option PatternContextC) :=
      match parent with
      | NameParentK.constP => some (NameKindC.constN, none)
      | NameParentK.constParamP => some (NameKindC.constParamN, none)
      | NameParentK.enumP => some (NameKindC.enumN, none)
      | NameParentK.fnP => some (NameKindC.functionN, none)
      | NameParentK.identPatP bind_pat =>
        some (NameKindC.identPatN,
          if !is_name_in_field_pat bind_pat then
            some (pattern_context_for original_file bind_pat)
          else none)
      | NameParentK.macroDefP => some (NameKindC.macroDefN, none)
      | NameParentK.macroRulesP => some (NameKindC.macroRulesN, none)
      | NameParentK.moduleP i pr => some (NameKindC.moduleN i pr, none)
      | NameParentK.recordFieldP => some (NameKindC.recordFieldN, none)
      | NameParentK.renameP => some (NameKindC.renameN, none)
      | NameParentK.selfParamP => some (NameKindC.selfParamN, none)
      | NameParentK.staticP => some (NameKindC.staticN, none)
      | NameParentK.structP => some (NameKindC.structN, none)
      | NameParentK.traitP => some (NameKindC.traitN, none)
      | NameParentK.typeAliasP => some (NameKindC.typeAliasN, none)
      | NameParentK.typeParamP => some (NameKindC.typeParamN, none)
      | NameParentK.unionP => some (NameKindC.unionN, none)
      | NameParentK.variantP => some (NameKindC.variantN, none)
      | NameParentK.otherP => none
    match kp with
    | none => none
    | some (kind, pat_ctx) =>
      some (⟨original_file.findNameAt name.startOff, kind⟩, pat_ctx)

/-- A concrete original file whose name lookup always yields an
original-tree node at the queried offset. -/
def exOrig : COrigFile :=
  ⟨0, 100, fun _ _ => none, fun o => some ⟨7, Prov.original, o, none⟩⟩

/-- A concrete speculative binding pattern sitting inside an enclosing
pattern inside a match arm, as classification sees it for a fixture like
`match x { Some(y$0) => () }`. -/
def exBindPat : CPat :=
  ⟨3, PatKindC.identPatK none none, Prov.speculative,
    [⟨4, AncKind.patAnc, 2, 30, Prov.speculative⟩,
     ⟨5, AncKind.matchArmAnc, 2, 40, Prov.speculative⟩]⟩

/-- The concrete speculative name node whose parent is `exBindPat`. -/
def exName : CNameNode :=
  ⟨2, Prov.speculative, 5, some (NameParentK.identPatP exBindPat)⟩

end RAComp.Classify

namespace RAComp.Classify

theorem paramCtxFor_param_eq (original_file : COrigFile) (node : AncNode)
    (rest : List AncNode) (pl : ParamListNode) (p : AncNode)
    (k : ParamKindC)
    (h : paramCtxFor original_file node rest = some (pl, p, k)) :
    p = node := by
  unfold paramCtxFor at h
  cases rest with
  | nil => cases h
  | cons f r =>
    dsimp only at h
    by_cases hp : f.kind = AncKind.paramListAnc
    · rw [if_pos hp] at h
      cases hc : find_node_in_file_compensated original_file f.rangeStart
          f.rangeEnd with
      | none => rw [hc] at h; cases h
      | some plx =>
        rw [hc] at h
        dsimp only at h
        cases ho : plx.owner with
        | none => rw [ho] at h; cases h
        | some ow =>
          rw [ho] at h
          cases ow with
          | closureOwner oid => dsimp only at h; cases h; rfl
          | fnOwner oid => dsimp only at h; cases h; rfl
          | otherOwner => dsimp only at h; cases h
    · rw [if_neg hp] at h; cases h

theorem find_compensated_covering (original_file : COrigFile)
    (a b : Nat) (pl : ParamListNode)
    (h : find_node_in_file_compensated original_file a b = some pl) :
    ∃ s e, original_file.coveringParamList s e = some pl := by
  unfold find_node_in_file_compensated at h
  by_cases h1 : b < COMPLETION_MARKER.length
  · rw [if_pos h1] at h; cases h
  · rw [if_neg h1] at h
    dsimp only at h
    by_cases h2 : b - COMPLETION_MARKER.length < a
    · rw [if_pos h2] at h; cases h
    · rw [if_neg h2] at h
      by_cases h3 : max a original_file.rangeStart ≤
          min (b - COMPLETION_MARKER.length) original_file.rangeEnd
      · rw [if_pos h3] at h; exact ⟨_, _, h⟩
      · rw [if_neg h3] at h; cases h

theorem paramCtxFor_pl_covering (original_file : COrigFile)
    (node : AncNode) (rest : List AncNode) (pl : ParamListNode)
    (p : AncNode) (k : ParamKindC)
    (h : paramCtxFor original_file node rest = some (pl, p, k)) :
    ∃ s e, original_file.coveringParamList s e = some pl := by
  unfold paramCtxFor at h
  cases rest with
  | nil => cases h
  | cons f r =>
    dsimp only at h
    by_cases hp : f.kind = AncKind.paramListAnc
    · rw [if_pos hp] at h
      cases hc : find_node_in_file_compensated original_file f.rangeStart
          f.rangeEnd with
      | none => rw [hc] at h; cases h
      | some plx =>
        rw [hc] at h
        dsimp only at h
        cases ho : plx.owner with
        | none => rw [ho] at h; cases h
        | some ow =>
          rw [ho] at h
          cases ow with
          | closureOwner oid =>
            dsimp only at h
            cases h
            exact find_compensated_covering original_file _ _ _ hc
          | fnOwner oid =>
            dsimp only at h
            cases h
            exact find_compensated_covering original_file _ _ _ hc
          | otherOwner => dsimp only at h; cases h
    · rw [if_neg hp] at h; cases h

theorem refutability_info_param_covering (original_file : COrigFile)
    (l : List AncNode) (pl : ParamListNode) (p : AncNode) (k : ParamKindC)
    (h : (pattern_refutability_info original_file l).2.2 =
      some (pl, p, k)) :
    ∃ s e, original_file.coveringParamList s e = some pl := by
  cases l with
  | nil => cases h
  | cons node rest =>
    rw [pattern_refutability_info] at h
    cases hk : node.kind <;> rw [hk] at h <;> dsimp only at h
    case patAnc => cases h
    case recordPatFieldAnc b => cases h
    case letStmtAnc b => cases h
    case paramAnc b =>
      exact paramCtxFor_pl_covering original_file node rest pl p k h
    case matchArmAnc => cases h
    case letExprAnc => cases h
    case forExprAnc => cases h
    case paramListAnc => cases h
    case otherAnc => cases h

theorem refutability_info_param_mem (original_file : COrigFile)
    (l : List AncNode) (pl : ParamListNode) (p : AncNode) (k : ParamKindC)
    (h : (pattern_refutability_info original_file l).2.2 =
      some (pl, p, k)) :
    p ∈ l := by
  cases l with
  | nil => cases h
  | cons node rest =>
    rw [pattern_refutability_info] at h
    cases hk : node.kind <;> rw [hk] at h <;> dsimp only at h
    case patAnc => cases h
    case recordPatFieldAnc b => cases h
    case letStmtAnc b => cases h
    case paramAnc b =>
      rw [paramCtxFor_param_eq original_file node rest pl p k h]
      exact List.mem_cons_self node rest
    case matchArmAnc => cases h
    case letExprAnc => cases h
    case forExprAnc => cases h
    case paramListAnc => cases h
    case otherAnc => cases h

end RAComp.Classify

namespace RAComp

/-- C1 counterexample: the claim — every syntax node and token stored in
the result originates from the original parse tree, never from the
speculative tree — fails as stated.  On the concrete name `exName`, found
in the speculative tree with an identifier-pattern parent `exBindPat`
(the shape of `match x { Some(y$0) => () }`), `classify_name` succeeds and
the resulting pattern context's `parent_pat` is the speculative enclosing
pattern node: a node of the speculative tree stored in the result. -/
theorem c1_speculative_parent_pat_counterexample :
    (match Classify.classify_name Classify.exOrig Classify.exName with
      | some (_, some pc) => pc.parent_pat.map (fun n => n.prov)
      | _ => none) = some Classify.Prov.speculative := by
  rfl

/-- C1 (amended): the name node stored in the result is re-located in the
original tree (so carries original-tree provenance whenever the original
file's lookups do), and so is the parameter-list node of the parameter
info; but the pattern context's parent pattern, its `ref`/`mut` tokens and
the parameter node of the parameter info are taken over from the
speculative input pattern: a speculative binding pattern yields a
speculative `parent_pat` and a speculative parameter node, and the stored
modifier tokens are exactly the input pattern's own tokens. -/
theorem c1_name_original_pattern_speculative (orig : Classify.COrigFile)
    (name : Classify.CNameNode) (bind_pat : Classify.CPat)
    (hWF : ∀ o n, orig.findNameAt o = some n →
      n.prov = Classify.Prov.original)
    (hWFpl : ∀ a b pl, orig.coveringParamList a b = some pl →
      pl.prov = Classify.Prov.original)
    (hparent : name.parent =
      some (Classify.NameParentK.identPatP bind_pat))
    (hshort : Classify.is_name_in_field_pat bind_pat = false)
    (hanc : ∀ n ∈ bind_pat.ancestors, n.prov = Classify.Prov.speculative) :
    Classify.classify_name orig name =
      some (⟨orig.findNameAt name.startOff, Classify.NameKindC.identPatN⟩,
        some (Classify.pattern_context_for orig bind_pat)) ∧
    (∀ n, orig.findNameAt name.startOff = some n →
      n.prov = Classify.Prov.original) ∧
    (∀ n, (Classify.pattern_context_for orig bind_pat).parent_pat =
      some n → n.prov = Classify.Prov.speculative) ∧
    (Classify.pattern_context_for orig bind_pat).ref_token =
      (Classify.pat_ref_mut bind_pat).1 ∧
    (Classify.pattern_context_for orig bind_pat).mut_token =
      (Classify.pat_ref_mut bind_pat).2 ∧
    (∀ pl p k,
      (Classify.pattern_context_for orig bind_pat).param_ctx =
        some (pl, p, k) →
      p.prov = Classify.Prov.speculative ∧
        pl.prov = Classify.Prov.original) := by
  refine ⟨?_, ?_, ?_, rfl, rfl, ?_⟩
  · unfold Classify.classify_name
    rw [hparent]
    dsimp only
    rw [hshort]
    rfl
  · intro n h
    exact hWF name.startOff n h
  · intro n h
    have h2 : bind_pat.ancestors.head?.bind
        (fun m => if Classify.isPatNodeKind m.kind then some m else none) =
        some n := h
    cases hh : bind_pat.ancestors.head? with
    | none => rw [hh] at h2; cases h2
    | some m =>
      rw [hh] at h2
      simp only [Option.some_bind] at h2
      by_cases hm : Classify.isPatNodeKind m.kind
      · rw [if_pos hm] at h2
        have hmn : m = n := by injection h2
        subst hmn
        exact hanc m (List.mem_of_mem_head? (by
          simp only [Option.mem_def, hh]))
      · rw [if_neg hm] at h2; cases h2
  · intro pl p k h
    have hmem : p ∈ bind_pat.ancestors.dropWhile
        (fun n => Classify.isPatNodeKind n.kind) :=
      Classify.refutability_info_param_mem orig _ pl p k h
    refine ⟨hanc p ((List.dropWhile_sublist _).subset hmem), ?_⟩
    obtain ⟨a, b, hab⟩ :=
      Classify.refutability_info_param_covering orig _ pl p k h
    exact hWFpl a b pl hab

end RAComp

namespace RAComp

/-- Witness for the amended C1: on the concrete fixture, classification
succeeds, the stored name is the original-tree node the original file's
lookup returns, and the stored parent pattern is the speculative node. -/
theorem c1_name_original_pattern_speculative_witness :
    Classify.classify_name Classify.exOrig Classify.exName =
      some (⟨some ⟨7, Classify.Prov.original, 5, none⟩,
          Classify.NameKindC.identPatN⟩,
        some (Classify.pattern_context_for Classify.exOrig
          Classify.exBindPat)) ∧
    (Classify.AncNode.prov
        ⟨4, Classify.AncKind.patAnc, 2, 30, Classify.Prov.speculative⟩) =
      Classify.Prov.speculative := by
  have h := c1_name_original_pattern_speculative Classify.exOrig
    Classify.exName Classify.exBindPat
    (by intro o n hh; cases hh; rfl)
    (by intro a b pl hh; cases hh)
    rfl rfl (by decide)
  exact ⟨h.1, h.2.2.1 _ rfl⟩

end RAComp
